import Mathlib

/-!
Verification development for the `decomp/exp` binary lifter.

Part 1 models `src/lift/inst_fpu.go`: the x87 FPU register-stack emulation.
The Go function `fpush` emits LLVM IR basic blocks; we embed the emitted
program in a small IR (values, cells, instructions, terminators, blocks)
and give it an executable small-step interpreter, so that the behaviour of
the emitted code can be proved and evaluated on concrete inputs.

Part 2 models `src/cmd/bin2ll/main.go`: chunk classification (`parseFile`),
the instruction dispatch (`parseInst`), and the function-selection logic
of `main`.
-/

namespace Lift

/-- Operand values of the emitted i8-typed IR instructions: integer
constants (`constant.NewInt(_, types.I8)` in the source) and virtual
registers (results of previously emitted instructions). -/
inductive IRVal where
  | const (n : Nat)
  | reg (id : Nat)
deriving DecidableEq

/-- The statically named storage cells of the FPU emulation: the
stack-top pointer cell `f.st`, and the eight stack-slot cells
`f.fpuStack[0] .. f.fpuStack[7]` (logical registers ST0..ST7; the spec
fixes the slot count at 8). -/
inductive Cell where
  | st
  | slot (i : Fin 8)
deriving DecidableEq

/-- The instruction forms emitted by `fpush` (plus `urem`, LLVM's
unsigned-remainder instruction, which `fpush` never emits: the pointer
wraparound is done by branching, not by arithmetic modulo).
`storeSrc c` stores the pushed value `src` (of LLVM type `x86_fp80`)
into cell `c`; all other operands are i8-valued. -/
inductive Insn where
  | load (res : Nat) (c : Cell)
  | icmpEq (res : Nat) (a b : IRVal)
  | sub (res : Nat) (a b : IRVal)
  | urem (res : Nat) (a b : IRVal)
  | storeInt (v : IRVal) (c : Cell)
  | storeSrc (c : Cell)
deriving DecidableEq

/-- Block terminators: unconditional branch, two-way conditional branch,
multi-way switch (scrutinee, default target,(case constant, target) list),
and `unreachable`. -/
inductive Term where
  | br (target : Nat)
  | condbr (cond : IRVal) (onTrue onFalse : Nat)
  | switchOn (scrut : IRVal) (dflt : Nat) (cases : List (Nat × Nat))
  | unreach
deriving DecidableEq

/-- A basic block: its instruction list and its terminator.  `term = none`
means the block is still open (the emitter has not placed a terminator in
it yet); execution of the emitted fragment completes when control reaches
an open block. -/
structure Block where
  insts : List Insn
  term : Option Term
deriving DecidableEq

/-- `true` exactly on remainder (modulo) instructions. -/
def usesRem : Insn → Bool
  | .urem _ _ _ => true
  | _ => false

/-- The basic blocks emitted by `func (f *Func) fpush(src value.Value)`
(src/lift/inst_fpu.go lines 981-1025), with positional block ids:

* 0: the block that is current when `fpush` is called; it receives
  `tmp1 := load f.st`, `cond := icmp eq tmp1, 0` and
  `condbr cond, targetTrue, targetFalse`;
* 1: `targetTrue` — stores the constant 7 to `f.st`, branches to `follow`;
* 2: `targetFalse` — `tmp2 := sub tmp1, 1`, stores `tmp2` to `f.st`,
  branches to `follow`;
* 3: `follow` — reloads `f.st` (register 3, the new pointer) and switches
  on it with one case per slot index 0..7 and an unreachable default;
* 4+i (i = 0..7): the case block for slot `i` — stores `src` into
  `f.fpuStack[i]` and branches to the join block `end`;
* 12: `defaultTarget` — `unreachable`;
* 13: `end` — the join block, left open: the push is complete and
  subsequent lifting continues here. -/
def fpush : List Block :=
  [ ⟨[Insn.load 0 Cell.st, Insn.icmpEq 1 (IRVal.reg 0) (IRVal.const 0)],
      some (Term.condbr (IRVal.reg 1) 1 2)⟩,
    ⟨[Insn.storeInt (IRVal.const 7) Cell.st], some (Term.br 3)⟩,
    ⟨[Insn.sub 2 (IRVal.reg 0) (IRVal.const 1), Insn.storeInt (IRVal.reg 2) Cell.st],
      some (Term.br 3)⟩,
    ⟨[Insn.load 3 Cell.st],
      some (Term.switchOn (IRVal.reg 3) 12
        [(0, 4), (1, 5), (2, 6), (3, 7), (4, 8), (5, 9), (6, 10), (7, 11)])⟩,
    ⟨[Insn.storeSrc (Cell.slot 0)], some (Term.br 13)⟩,
    ⟨[Insn.storeSrc (Cell.slot 1)], some (Term.br 13)⟩,
    ⟨[Insn.storeSrc (Cell.slot 2)], some (Term.br 13)⟩,
    ⟨[Insn.storeSrc (Cell.slot 3)], some (Term.br 13)⟩,
    ⟨[Insn.storeSrc (Cell.slot 4)], some (Term.br 13)⟩,
    ⟨[Insn.storeSrc (Cell.slot 5)], some (Term.br 13)⟩,
    ⟨[Insn.storeSrc (Cell.slot 6)], some (Term.br 13)⟩,
    ⟨[Insn.storeSrc (Cell.slot 7)], some (Term.br 13)⟩,
    ⟨[], some Term.unreach⟩,
    ⟨[], none⟩ ]

/-- Machine state of the emitted code: the i8 contents of the pointer
cell `f.st`, the contents of the eight slot cells, the virtual-register
file (i8 results; `none` = not yet assigned), and the ordered list of
slot cells written so far (the write trace used to state the
"each slot written exactly once" guarantee).  `V` is the type of the
pushed `x86_fp80` values, kept abstract. -/
structure MachState (V : Type) where
  st : Nat
  fpuStack : Fin 8 → V
  regs : Nat → Option Nat
  slotWrites : List (Fin 8)

/-- Evaluate an operand to its i8 value. -/
def evalVal (regs : Nat → Option Nat) : IRVal → Option Nat
  | .const n => some (n % 256)
  | .reg r => regs r

/-- Assign register `r`. -/
def setReg (regs : Nat → Option Nat) (r : Nat) (n : Nat) : Nat → Option Nat :=
  fun q => if q = r then some n else regs q

/-- Overwrite slot `i` of the stack, leaving the other slots unchanged. -/
def updateSlot {V : Type} (stack : Fin 8 → V) (i : Fin 8) (v : V) : Fin 8 → V :=
  fun j => if j = i then v else stack j

/-- Execute one instruction.  i8 arithmetic is taken modulo 256 (`sub`
wraps, exactly as the LLVM i8 `sub` emitted by the source would).
Type-confused forms (loading a slot cell into an i8 register, storing an
i8 into a slot cell, storing `src` into the pointer cell) are rejected;
`fpush` never emits them. -/
def execInsn {V : Type} (src : V) (s : MachState V) : Insn → Option (MachState V)
  | .load res Cell.st => some { s with regs := setReg s.regs res s.st }
  | .load _ (Cell.slot _) => none
  | .icmpEq res a b => do
      let x ← evalVal s.regs a
      let y ← evalVal s.regs b
      some { s with regs := setReg s.regs res (if x = y then 1 else 0) }
  | .sub res a b => do
      let x ← evalVal s.regs a
      let y ← evalVal s.regs b
      some { s with regs := setReg s.regs res ((x + (256 - y % 256)) % 256) }
  | .urem res a b => do
      let x ← evalVal s.regs a
      let y ← evalVal s.regs b
      if y % 256 = 0 then none
      else some { s with regs := setReg s.regs res (x % 256 % (y % 256)) }
  | .storeInt v Cell.st => do
      let n ← evalVal s.regs v
      some { s with st := n % 256 }
  | .storeInt _ (Cell.slot _) => none
  | .storeSrc (Cell.slot i) =>
      some { s with fpuStack := updateSlot s.fpuStack i src,
                    slotWrites := s.slotWrites ++ [i] }
  | .storeSrc Cell.st => none

/-- Execute a list of instructions in order. -/
def execInsts {V : Type} (src : V) : List Insn → MachState V → Option (MachState V)
  | [], s => some s
  | i :: is, s => do execInsts src is (← execInsn src s i)

/-- First switch case whose (i8-truncated) constant equals `n`. -/
def findCase (n : Nat) : List (Nat × Nat) → Option Nat
  | [] => none
  | (c, t) :: rest => if c % 256 = n then some t else findCase n rest

/-- Resolve a terminator to the control action it takes: `some none`
means the block is open, so execution of the emitted fragment stops
here; `some (some t)` means control transfers to block `t`; `none`
means failure (`unreachable`, or an unassigned register). -/
def termNext (t : Option Term) (regs : Nat → Option Nat) : Option (Option Nat) :=
  match t with
  | none => some none
  | some (Term.br t) => some (some t)
  | some (Term.condbr c t f) =>
      (evalVal regs c).map (fun n => some (if n ≠ 0 then t else f))
  | some (Term.switchOn v dflt cs) =>
      (evalVal regs v).map (fun n => some ((findCase n cs).getD dflt))
  | some Term.unreach => none

/-- Run the block list starting at block id `b`: execute the block's
instructions, then follow its terminator.  Execution stops successfully
at an open block (returning its id and the final state); it fails
(`none`) on `unreachable`, on a missing block, on a type-confused
instruction, or when out of fuel. -/
def runBlocks {V : Type} (src : V) (blocks : List Block) (fuel : Nat) :
    Nat → MachState V → Option (Nat × MachState V) :=
  Nat.rec (fun _ _ => none)
    (fun _ ih b s =>
      match blocks[b]? with
      | none => none
      | some blk =>
        match execInsts src blk.insts s with
        | none => none
        | some s' =>
          match termNext blk.term s'.regs with
          | none => none
          | some none => some (b, s')
          | some (some t) => ih t s')
    fuel

/-- Execute one `fpush src` from pointer value `p` and stack contents
`stack` (fresh register file, empty write trace), returning the id of the
block where control comes to rest, the final pointer value, the final
slot contents, and the trace of slot writes. -/
def fpushFinal {V : Type} (src : V) (p : Nat) (stack : Fin 8 → V) :
    Option (Nat × Nat × (Fin 8 → V) × List (Fin 8)) :=
  (runBlocks src fpush 16 0 ⟨p % 256, stack, fun _ => none, []⟩).map
    (fun r => (r.1, r.2.st, r.2.fpuStack, r.2.slotWrites))

/-- Execute a sequence of pushes (one `fpush` per listed value, no
intervening pops), threading the pointer and stack and concatenating the
slot-write traces.  Each push must come to rest at the join block
(id 13), where the next push's code is emitted. -/
def runFpushN {V : Type} : List V → Nat → (Fin 8 → V) → Option (Nat × (Fin 8 → V) × List (Fin 8))
  | [], p, stack => some (p, stack, [])
  | v :: vs, p, stack => do
      let r ← fpushFinal v p stack
      if r.1 = 13 then
        let rest ← runFpushN vs r.2.1 r.2.2.1
        some (rest.1, rest.2.1, r.2.2.2 ++ rest.2.2)
      else none

/-- The specification's formula for the new pointer after a push:
`(p == 0) ? 7 : p - 1`. -/
def fpushNewSt (p : Nat) : Nat := if p = 0 then 7 else p - 1

/-- The slot the k-th push (k = 0, 1, ...) writes when the pointer starts
at `p`: slot `(p - 1 - k) mod 8`, i.e., `(p + 7 - k) mod 8`. -/
def pushSlot (p : Fin 8) (k : Fin 8) : Fin 8 :=
  ⟨(p.val + 7 - k.val) % 8, Nat.mod_lt _ (by decide)⟩

/-- The eight entries of a `Fin 8`-indexed family, in index order. -/
def stackList {α : Type} (f : Fin 8 → α) : List α :=
  [f 0, f 1, f 2, f 3, f 4, f 5, f 6, f 7]

/-- The slots written by 8 consecutive pushes from pointer `p`, in push
order. -/
def wrapTrace (p : Fin 8) : List (Fin 8) :=
  stackList (pushSlot p)

/-- Symbolic run-time values.  The emitted code (and hence the
interpreter) never inspects the pushed values — it only moves them — so
running it on distinguishable symbolic values determines where every
value ends up for arbitrary values: `initSlot i` stands for whatever
slot `i` held before the pushes, `pushed k` for the value handed to the
(k+1)-th push. -/
inductive SymVal where
  | initSlot (i : Fin 8)
  | pushed (k : Nat)
deriving DecidableEq

/-- The stack before any push: slot `i` holds its symbolic initial value. -/
def initStack : Fin 8 → SymVal := SymVal.initSlot

/-- The 8 symbolic values handed to 8 consecutive pushes, in order. -/
def eightPushes : List SymVal := stackList (fun k => SymVal.pushed k.val)

/-- LLVM types appearing in the FPU lifting: `types.X86_FP80` (the
extended-precision floating-point type the FPU slots hold) and the
integer types of FILD source operands. -/
inductive LLVMType where
  | x86fp80
  | i16
  | i32
  | i64
deriving DecidableEq

/-- Symbolic LLVM IR values of the FPU lifting: the value of a decoded
instruction operand, and the result of a signed-int-to-float conversion
(`NewSIToFP` in the source). -/
inductive LLVMValue where
  | operandVal (id : Nat)
  | siToFP (v : LLVMValue) (toTy : LLVMType)
deriving DecidableEq

/-- An x87 instruction as the FPU lifter sees it: its ordered operand
list (operands identified by opaque ids; `inst.Arg(i)` in the source). -/
structure LInst where
  args : List Nat
deriving DecidableEq

/-- Modelled from the spec: `useArg` (operand resolution, §4.3 of the
spec) is defined outside src/lift/inst_fpu.go; it maps the instruction's
i-th operand to the IR value read from it.  We model it as the symbolic
operand value. -/
def useArg (inst : LInst) (i : Nat) : LLVMValue :=
  LLVMValue.operandVal (inst.args.getD i 0)

/-- `liftInstFILD` (src/lift/inst_fpu.go lines 53-66): resolve operand 0,
emit `sitofp` of it to `x86_fp80`, push the converted value via `fpush`,
and return without error.  The first component is the value handed to
`fpush`; the second is the returned error status (`nil` in the source). -/
def liftInstFILD (inst : LInst) : LLVMValue × Except String Unit :=
  let arg := useArg inst 0
  let src := LLVMValue.siToFP arg LLVMType.x86fp80
  (src, Except.ok ())

end Lift

namespace Bin2ll

/-- Chunk kinds (`kind` in src/cmd/bin2ll/main.go lines 163-171). -/
inductive Kind where
  | kindNone
  | kindCode
  | kindData
deriving DecidableEq

/-- A chunk of bytes: its kind and start address (src/cmd/bin2ll/main.go
lines 155-161).  Addresses (`bin.Address`, uint64) are modelled as `Nat`;
only order and equality of addresses matter here. -/
structure Chunk where
  kind : Kind
  addr : Nat
deriving DecidableEq

/-- The comparison `d.chunks[i].addr < d.chunks[j].addr` used to sort
chunks, relaxed to `≤` as the sorting relation (Go's `sort.Slice` with a
strict `less` produces a sequence that is nondecreasing on `addr`; the
relative order of chunks with equal addresses is unspecified, and our
model fixes it by using a stable insertion sort). -/
def Chunk.le (c₁ c₂ : Chunk) : Prop := c₁.addr ≤ c₂.addr

instance : DecidableRel Chunk.le :=
  fun c₁ c₂ => inferInstanceAs (Decidable (c₁.addr ≤ c₂.addr))

instance : IsTotal Chunk Chunk.le := ⟨fun c₁ c₂ => Nat.le_total c₁.addr c₂.addr⟩

instance : IsTrans Chunk Chunk.le := ⟨fun _ _ _ h₁ h₂ => Nat.le_trans h₁ h₂⟩

/-- The fields of the `disassembler` struct that the core computes
(src/cmd/bin2ll/main.go lines 83-93); the PE file handle is an external
resource and is omitted. -/
structure disassembler where
  funcAddrs : List Nat
  blockAddrs : List Nat
  chunks : List Chunk
deriving DecidableEq

/-- The pure core of `parseFile` (src/cmd/bin2ll/main.go lines 97-153),
taking the three already-parsed address lists as inputs (in the source
they come from funcs.json, blocks.json and data.json; file and JSON
errors are external and happen before this logic runs).  Each list is
sorted ascending (`sort.Sort(bin.Addresses(...))`); basic-block
addresses are appended as Code chunks, then data addresses as Data
chunks, and the combined chunk list is sorted by address
(`sort.Slice(d.chunks, less)`). -/
def parseFile (funcAddrs blockAddrs dataAddrs : List Nat) : disassembler :=
  let fa := List.insertionSort (· ≤ ·) funcAddrs
  let ba := List.insertionSort (· ≤ ·) blockAddrs
  let da := List.insertionSort (· ≤ ·) dataAddrs
  let codeChunks := ba.map fun a => Chunk.mk Kind.kindCode a
  let dataChunks := da.map fun a => Chunk.mk Kind.kindData a
  { funcAddrs := fa, blockAddrs := ba,
    chunks := List.insertionSort Chunk.le (codeChunks ++ dataChunks) }

/-- The function-selection logic of `main` (src/cmd/bin2ll/main.go lines
70-73): lift the single function at `funcAddr` if the `-func` option is
nonzero, otherwise lift every known function address.  The option's
default value is 0, so an omitted option also selects the full list. -/
def mainFuncAddrs (funcAddr : Nat) (knownFuncAddrs : List Nat) : List Nat :=
  if funcAddr ≠ 0 then [funcAddr] else knownFuncAddrs

/-- The x86 operations distinguished by `parseInst`
(src/cmd/bin2ll/main.go lines 209-224), plus `FSQRT` as a representative
operation without a lifting rule and a catch-all for the remaining
`x86asm.Op` values (carrying the mnemonic string `%v` prints). -/
inductive Op where
  | RET
  | LEA
  | XOR
  | PUSH
  | POP
  | FSQRT
  | otherOp (name : String)
deriving DecidableEq

/-- The mnemonic string of an operation (what `%v` formats in Go). -/
def opName : Op → String
  | .RET => "RET"
  | .LEA => "LEA"
  | .XOR => "XOR"
  | .PUSH => "PUSH"
  | .POP => "POP"
  | .FSQRT => "FSQRT"
  | .otherOp s => s

/-- A decoded instruction argument (`x86asm.Arg`); its structure is
irrelevant to the dispatch, so it is kept opaque.  `noArg` is the nil
argument of an absent operand slot. -/
inductive Arg where
  | noArg
  | arg (id : Nat)
deriving DecidableEq

/-- Go tokens used by the produced statements. -/
inductive GoToken where
  | ASSIGN
  | XOR
deriving DecidableEq

/-- Go expressions produced by the parser: the expression for a decoded
argument (the result of `getArg`), and a binary expression. -/
inductive GoExpr where
  | argExpr (a : Arg)
  | binaryExpr (x : GoExpr) (tok : GoToken) (y : GoExpr)
deriving DecidableEq

/-- Go statements produced by the parser: `ast.ReturnStmt` and
`ast.AssignStmt` (lhs list, token, rhs list). -/
inductive GoStmt where
  | returnStmt
  | assignStmt (lhs : List GoExpr) (tok : GoToken) (rhs : List GoExpr)
deriving DecidableEq

/-- Modelled from the spec: `getArg` (operand resolution, §4.3 of the
spec) is defined outside the source file under review; it maps a decoded
argument to a Go expression.  We model it as its symbolic injection. -/
def getArg (a : Arg) : GoExpr := GoExpr.argExpr a

/-- The decoded instruction as `parseInst` consumes it (`x86asm.Inst`):
operation and argument list.  Note the record carries no address — the
decoded-instruction type has no address field. -/
structure Inst where
  op : Op
  args : List Arg
deriving DecidableEq

/-- `inst.Args[i]`: the i-th argument, nil (`noArg`) when absent. -/
def instArg (inst : Inst) (i : Nat) : Arg := inst.args.getD i Arg.noArg

/-- `parseLEA` (src/cmd/bin2ll/main.go lines 228-239): build
`lhs = rhs` from the two arguments. -/
def parseLEA (inst : Inst) : Except String (Option GoStmt) :=
  let x := getArg (instArg inst 0)
  let y := getArg (instArg inst 1)
  Except.ok (some (GoStmt.assignStmt [x] GoToken.ASSIGN [y]))

/-- `parseBinaryInst` (src/cmd/bin2ll/main.go lines 243-261): build
`lhs = lhs op rhs`; only XOR is mapped, any other operation yields the
not-yet-implemented error. -/
def parseBinaryInst (inst : Inst) : Except String (Option GoStmt) :=
  let x := getArg (instArg inst 0)
  let y := getArg (instArg inst 1)
  match inst.op with
  | Op.XOR =>
      Except.ok (some (GoStmt.assignStmt [x] GoToken.ASSIGN
        [GoExpr.binaryExpr x GoToken.XOR y]))
  | op => Except.error ("support for opcode " ++ opName op ++ " not yet implemented")

/-- `parseInst` (src/cmd/bin2ll/main.go lines 209-224): dispatch on the
operation.  `Except.ok (some stmt)` models `(stmt, nil)`,
`Except.ok none` models `(nil, nil)` (the PUSH/POP case falls through
the switch to `return nil, nil`), and `Except.error msg` models
`(nil, errutil.Newf(...))`. -/
def parseInst (inst : Inst) : Except String (Option GoStmt) :=
  match inst.op with
  | Op.RET => Except.ok (some GoStmt.returnStmt)
  | Op.LEA => parseLEA inst
  | Op.XOR => parseBinaryInst inst
  | Op.PUSH => Except.ok none
  | Op.POP => Except.ok none
  | op => Except.error ("support for opcode " ++ opName op ++ " not yet implemented")

/-- `true` on the operations `parseInst` has no case for (the ones that
reach its `default` branch). -/
def unsupportedOp : Op → Bool
  | Op.RET | Op.LEA | Op.XOR | Op.PUSH | Op.POP => false
  | _ => true

/-- A lifted function of the output set: its address and the statements
produced for its instructions. -/
structure Func where
  addr : Nat
  stmts : List GoStmt
deriving DecidableEq

/-- Modelled from the spec: the per-function lifting driver (`decodeFunc`
of the spec, §4.2-4.3; `d.decodeFunc` in main.go is defined outside the
source under review) lifts the function's decoded instructions in order;
the first instruction whose lifting fails aborts the function with that
error.  This is its instruction-lifting loop: no-ops contribute no
statement, and an error stops the fold. -/
def liftInsts : List Inst → Except String (List GoStmt)
  | [] => Except.ok []
  | i :: is =>
      match parseInst i with
      | Except.error e => Except.error e
      | Except.ok none => liftInsts is
      | Except.ok (some s) => (liftInsts is).map (fun ss => s :: ss)

/-- Modelled from the spec: `decodeFunc(address) -> Function` (§4.2, §8)
produces a `Func` only when every instruction lifts; a lifting failure
yields the error and no Function value at all — there is no partially
built Function to leak. -/
def decodeFunc (addr : Nat) (insts : List Inst) : Except String Func :=
  (liftInsts insts).map (fun ss => Func.mk addr ss)

/-- The per-function loop of `main` (src/cmd/bin2ll/main.go lines 74-80):
each requested function (given here with its decoded instructions) is
lifted in turn; a successful lift is emitted to the output set, and the
first failure aborts the run (`log.Fatalf`) with that error, emitting
nothing further.  Returns the output set and the fatal error, if any. -/
def mainLoop : List (Nat × List Inst) → List Func × Option String
  | [] => ([], none)
  | fn :: rest =>
      match decodeFunc fn.1 fn.2 with
      | Except.error e => ([], some e)
      | Except.ok f =>
          let r := mainLoop rest
          (f :: r.1, r.2)

end Bin2ll

namespace Bin2ll

/-- The chunk sequence is a permutation of "one Code chunk per block
address, one Data chunk per data address" (no chunk is invented or
dropped by the sort, and `funcAddrs` contributes none). -/
lemma chunks_perm (fa b d : List Nat) :
    List.Perm (parseFile fa b d).chunks
      ((b.map fun a => Chunk.mk Kind.kindCode a) ++ (d.map fun a => Chunk.mk Kind.kindData a)) :=
  (List.perm_insertionSort _ _).trans
    (((List.perm_insertionSort _ b).map _).append ((List.perm_insertionSort _ d).map _))

/-- The chunk addresses are a permutation of the combined input
addresses. -/
lemma map_addr_perm (fa b d : List Nat) :
    List.Perm ((parseFile fa b d).chunks.map Chunk.addr) (b ++ d) := by
  have h := (chunks_perm fa b d).map Chunk.addr
  simpa [Function.comp_def] using h

/-- The chunk sequence is sorted by address (nondecreasing). -/
lemma chunks_sorted_le (fa b d : List Nat) :
    (parseFile fa b d).chunks.Pairwise Chunk.le :=
  List.sorted_insertionSort Chunk.le _

/-- The stored function-address list is sorted. -/
lemma funcAddrs_sorted (fa b d : List Nat) :
    (parseFile fa b d).funcAddrs.Pairwise (· ≤ ·) :=
  List.sorted_insertionSort _ _

/-- The stored block-address list is sorted. -/
lemma blockAddrs_sorted (fa b d : List Nat) :
    (parseFile fa b d).blockAddrs.Pairwise (· ≤ ·) :=
  List.sorted_insertionSort _ _

/-- With strictly sorted, disjoint inputs the chunk addresses are
pairwise distinct. -/
lemma chunks_addr_nodup (fa b d : List Nat)
    (hb : b.Pairwise (· < ·)) (hd : d.Pairwise (· < ·)) (hbd : ∀ a ∈ b, a ∉ d) :
    ((parseFile fa b d).chunks.map Chunk.addr).Nodup := by
  have hbd' : (b ++ d).Nodup := by
    rw [List.nodup_append]
    exact ⟨hb.imp (fun h => Nat.ne_of_lt h), hd.imp (fun h => Nat.ne_of_lt h),
      fun a ha had => hbd a ha had⟩
  exact (map_addr_perm fa b d).nodup_iff.mpr hbd'

/-- An operation without a lifting rule reaches `parseInst`'s default
branch: the error names the mnemonic. -/
lemma parseInst_unsupported_err (inst : Inst) (h : unsupportedOp inst.op = true) :
    parseInst inst =
      Except.error ("support for opcode " ++ opName inst.op ++ " not yet implemented") := by
  cases inst with
  | mk op args =>
    cases op <;> first | rfl | simp [unsupportedOp] at h

/-- Every operation with a lifting rule (or the PUSH/POP elision)
makes `parseInst` succeed. -/
lemma parseInst_supported_ok (i : Inst) (h : unsupportedOp i.op = false) :
    ∃ r, parseInst i = Except.ok r := by
  cases i with
  | mk op args =>
    cases op with
    | RET => exact ⟨_, rfl⟩
    | LEA => exact ⟨_, rfl⟩
    | XOR => exact ⟨_, rfl⟩
    | PUSH => exact ⟨_, rfl⟩
    | POP => exact ⟨_, rfl⟩
    | FSQRT => simp [unsupportedOp] at h
    | otherOp s => simp [unsupportedOp] at h

/-- The first unsupported instruction aborts the instruction-lifting
loop with its error. -/
lemma liftInsts_unsupported (inst : Inst) (h : unsupportedOp inst.op = true)
    (post : List Inst) :
    ∀ pre : List Inst, (∀ i ∈ pre, unsupportedOp i.op = false) →
      liftInsts (pre ++ inst :: post) =
        Except.error ("support for opcode " ++ opName inst.op ++ " not yet implemented") := by
  intro pre
  induction pre with
  | nil =>
    intro _
    simp [liftInsts, parseInst_unsupported_err inst h]
  | cons i is ih =>
    intro hpre
    obtain ⟨r, hr⟩ := parseInst_supported_ok i (hpre i (by simp))
    have hrec := ih (fun j hj => hpre j (by simp [hj]))
    cases r with
    | none => simpa [liftInsts, hr] using hrec
    | some s => simp [liftInsts, hr, hrec, Except.map]

/-- Soundness of the output set: every emitted Function is the result of
a complete, error-free lift of one of the requested functions — no
partial or corrupt Function is ever added. -/
lemma mainLoop_sound : ∀ fns : List (Nat × List Inst), ∀ f ∈ (mainLoop fns).1,
    ∃ fn ∈ fns, decodeFunc fn.1 fn.2 = Except.ok f := by
  intro fns
  induction fns with
  | nil =>
    intro f hf
    simp [mainLoop] at hf
  | cons fn rest ih =>
    intro f hf
    cases hdf : decodeFunc fn.1 fn.2 with
    | error e => simp [mainLoop, hdf] at hf
    | ok g =>
      simp only [mainLoop, hdf, List.mem_cons] at hf
      rcases hf with rfl | hf
      · exact ⟨fn, by simp, hdf⟩
      · obtain ⟨fn', hmem, hok⟩ := ih f hf
        exact ⟨fn', by simp [hmem], hok⟩

end Bin2ll

open Lift Bin2ll

/-- Claim C1: for every starting FPU stack pointer value in [0,7], 8
consecutive pushes (no intervening pops) return the pointer to its
original value and write each of the 8 slots exactly once, in order
(slot j ends up holding the value of the push that targeted it); and a
single push leaves the previous top's slot unchanged (the one slot
written, `pushSlot p 0`, differs from `p`) while exactly one slot — the
new top — holds the pushed value.  Stated over symbolic values
(`SymVal`), which the emitted code only moves, never inspects. -/
theorem fpush_wraparound_c1 : ∀ p : Fin 8,
    ((fpushFinal (SymVal.pushed 0) p.val initStack).map
        (fun r => (r.1, r.2.1, stackList r.2.2.1, r.2.2.2))
      = some (13, fpushNewSt p.val,
          stackList (fun j => if j = pushSlot p 0 then SymVal.pushed 0 else initStack j),
          [pushSlot p 0]))
    ∧ pushSlot p 0 ≠ p
    ∧ ((runFpushN eightPushes p.val initStack).map
        (fun r => (r.1, stackList r.2.1, r.2.2))
      = some (p.val, stackList (fun j => SymVal.pushed (pushSlot p j).val), wrapTrace p))
    ∧ (∀ j : Fin 8, (wrapTrace p).count j = 1) := by
  intro p
  fin_cases p <;> exact ⟨by decide, by decide, by decide, by decide⟩

/-- Claim C2: the push primitive computes the new pointer
`(p == 0) ? 7 : p - 1` via an explicit two-way conditional branch whose
arms store 7 resp. `p - 1` to the pointer cell and converge to the same
following block; no emitted instruction is an arithmetic remainder; for
every pointer in [0,7] the stored new pointer equals the spec formula
`fpushNewSt`; and in particular a push from pointer 3 yields pointer 2
with slot 2 holding the pushed value, and a push from pointer 0 yields
pointer 7 with slot 7 holding the pushed value. -/
theorem fpush_newptr_branch_c2 :
    (∃ join,
      fpush[0]? = some (Block.mk
          [Insn.load 0 Cell.st, Insn.icmpEq 1 (IRVal.reg 0) (IRVal.const 0)]
          (some (Term.condbr (IRVal.reg 1) 1 2))) ∧
      fpush[1]? = some (Block.mk [Insn.storeInt (IRVal.const 7) Cell.st]
          (some (Term.br join))) ∧
      fpush[2]? = some (Block.mk
          [Insn.sub 2 (IRVal.reg 0) (IRVal.const 1), Insn.storeInt (IRVal.reg 2) Cell.st]
          (some (Term.br join)))) ∧
    (fpush.all fun blk => blk.insts.all fun i => !usesRem i) = true ∧
    (∀ p : Fin 8,
      (fpushFinal (SymVal.pushed 0) p.val initStack).map (fun r => r.2.1)
        = some (fpushNewSt p.val)) ∧
    ((fpushFinal (SymVal.pushed 0) 3 initStack).map (fun r => (r.2.1, r.2.2.1 2))
        = some (2, SymVal.pushed 0)) ∧
    ((fpushFinal (SymVal.pushed 0) 0 initStack).map (fun r => (r.2.1, r.2.2.1 7))
        = some (7, SymVal.pushed 0)) :=
  ⟨⟨3, rfl, rfl, rfl⟩, by decide, by decide, by decide, by decide⟩

/-- Claim C3: the push primitive stores the value via a switch on the
reloaded new pointer with exactly one case per slot index 0..7, each
case block storing the value into its slot's cell and branching to a
shared join block (which is the open block where lifting resumes), plus
an unreachable default; and for every pointer satisfying the invariant
(value in [0,7]) execution never takes the default: it completes at the
join block. -/
theorem fpush_switch_c3 :
    (∃ cs : List (Nat × Nat),
      fpush[3]? = some (Block.mk [Insn.load 3 Cell.st]
          (some (Term.switchOn (IRVal.reg 3) 12 cs))) ∧
      cs.map Prod.fst = List.range 8 ∧
      (∃ join, fpush[join]? = some (Block.mk [] none) ∧
        ∀ k : Fin 8, ∃ t, cs[k.val]? = some (k.val, t) ∧
          fpush[t]? = some (Block.mk [Insn.storeSrc (Cell.slot k)] (some (Term.br join)))) ∧
      fpush[12]? = some (Block.mk [] (some Term.unreach))) ∧
    (∀ p : Fin 8,
      (fpushFinal (SymVal.pushed 0) p.val initStack).map (fun r => r.1) = some 13) := by
  refine ⟨⟨[(0, 4), (1, 5), (2, 6), (3, 7), (4, 8), (5, 9), (6, 10), (7, 11)],
    rfl, by decide, ⟨13, rfl, ?_⟩, rfl⟩, by decide⟩
  intro k
  fin_cases k <;> exact ⟨_, rfl, rfl⟩

/-- Claim C4: for strictly sorted, disjoint block- and data-address
lists, chunk classification yields a strictly ascending chunk sequence
with exactly one chunk per input address (the addresses are pairwise
distinct and the length is the sum of the input lengths), every block
address as a Code chunk, every data address as a Data chunk, nothing
else; function-start addresses contribute no chunks (the chunk sequence
does not depend on them). -/
theorem parseFile_classify_c4 (b d : List Nat)
    (hb : b.Pairwise (· < ·)) (hd : d.Pairwise (· < ·)) (hbd : ∀ a ∈ b, a ∉ d)
    (fa : List Nat) :
    ((parseFile fa b d).chunks.Pairwise fun c₁ c₂ => c₁.addr < c₂.addr) ∧
    (parseFile fa b d).chunks.length = b.length + d.length ∧
    (∀ a ∈ b, Chunk.mk Kind.kindCode a ∈ (parseFile fa b d).chunks) ∧
    (∀ a ∈ d, Chunk.mk Kind.kindData a ∈ (parseFile fa b d).chunks) ∧
    (∀ c ∈ (parseFile fa b d).chunks,
      (c.kind = Kind.kindCode ∧ c.addr ∈ b) ∨ (c.kind = Kind.kindData ∧ c.addr ∈ d)) ∧
    (∀ fa' : List Nat, (parseFile fa' b d).chunks = (parseFile fa b d).chunks) := by
  have hperm := chunks_perm fa b d
  have hnodup := chunks_addr_nodup fa b d hb hd hbd
  have hne : (parseFile fa b d).chunks.Pairwise (fun c₁ c₂ => c₁.addr ≠ c₂.addr) :=
    List.pairwise_map.mp hnodup
  have hlt : (parseFile fa b d).chunks.Pairwise (fun c₁ c₂ => c₁.addr < c₂.addr) :=
    ((chunks_sorted_le fa b d).and hne).imp (fun h => lt_of_le_of_ne h.1 h.2)
  refine ⟨hlt, ?_, ?_, ?_, ?_, fun fa' => rfl⟩
  · rw [hperm.length_eq, List.length_append, List.length_map, List.length_map]
  · intro a ha
    exact hperm.mem_iff.mpr (List.mem_append.mpr (Or.inl (List.mem_map.mpr ⟨a, ha, rfl⟩)))
  · intro a ha
    exact hperm.mem_iff.mpr (List.mem_append.mpr (Or.inr (List.mem_map.mpr ⟨a, ha, rfl⟩)))
  · intro c hc
    rcases List.mem_append.mp (hperm.subset hc) with h | h
    · rcases List.mem_map.mp h with ⟨a, ha, rfl⟩
      exact Or.inl ⟨rfl, ha⟩
    · rcases List.mem_map.mp h with ⟨a, ha, rfl⟩
      exact Or.inr ⟨rfl, ha⟩

/-- Witness for C4 at the spec's own example: block starts 0x1000,
0x1010 and data start 0x2000 give three chunks. -/
theorem parseFile_classify_c4_witness :
    ([4096, 4112] : List Nat).Pairwise (· < ·) ∧
    ([8192] : List Nat).Pairwise (· < ·) ∧
    (∀ a ∈ ([4096, 4112] : List Nat), a ∉ ([8192] : List Nat)) ∧
    (parseFile [] [4096, 4112] [8192]).chunks.length = 2 + 1 :=
  ⟨by decide, by decide, by decide,
    (parseFile_classify_c4 [4096, 4112] [8192] (by decide) (by decide) (by decide) []).2.1⟩

/-- Claim C5 (amended): when an address is claimed by both the block and
the data list, classification does not reject: it produces both a Code
chunk and a Data chunk at that address. -/
theorem parseFile_conflict_c5 (fa b d : List Nat) (a : Nat)
    (hab : a ∈ b) (had : a ∈ d) :
    Chunk.mk Kind.kindCode a ∈ (parseFile fa b d).chunks ∧
    Chunk.mk Kind.kindData a ∈ (parseFile fa b d).chunks := by
  have hperm := chunks_perm fa b d
  exact ⟨hperm.mem_iff.mpr (List.mem_append.mpr (Or.inl (List.mem_map.mpr ⟨a, hab, rfl⟩))),
    hperm.mem_iff.mpr (List.mem_append.mpr (Or.inr (List.mem_map.mpr ⟨a, had, rfl⟩)))⟩

/-- Counterexample to C5 as stated: with address 16 in both lists,
classification succeeds (no ConflictingClassificationError exists in the
code and no rejection happens); the result keeps both classifications —
two chunks at address 16, one Code and one Data. -/
theorem parseFile_conflict_c5_counterexample :
    (parseFile [] [16] [16]).chunks.length = 2 ∧
    Chunk.mk Kind.kindCode 16 ∈ (parseFile [] [16] [16]).chunks ∧
    Chunk.mk Kind.kindData 16 ∈ (parseFile [] [16] [16]).chunks := by decide

/-- Witness for C5's amended theorem at a concrete shared address. -/
theorem parseFile_conflict_c5_witness :
    (16 ∈ ([16] : List Nat)) ∧
    Chunk.mk Kind.kindCode 16 ∈ (parseFile [] [16] [16]).chunks :=
  ⟨by decide, (parseFile_conflict_c5 [] [16] [16] 16 (by decide) (by decide)).1⟩

/-- Claim C6 (amended): all address collections the core builds are
sorted ascending (nondecreasing); duplicates are not removed, so the
chunk addresses are pairwise distinct only when the inputs are strictly
sorted and disjoint. -/
theorem parseFile_collections_c6 (fa b d : List Nat) :
    (parseFile fa b d).funcAddrs.Pairwise (· ≤ ·) ∧
    (parseFile fa b d).blockAddrs.Pairwise (· ≤ ·) ∧
    ((parseFile fa b d).chunks.Pairwise fun c₁ c₂ => c₁.addr ≤ c₂.addr) ∧
    (b.Pairwise (· < ·) → d.Pairwise (· < ·) → (∀ a ∈ b, a ∉ d) →
      ((parseFile fa b d).chunks.map Chunk.addr).Nodup) :=
  ⟨funcAddrs_sorted fa b d, blockAddrs_sorted fa b d, chunks_sorted_le fa b d,
    fun hb hd hbd => chunks_addr_nodup fa b d hb hd hbd⟩

/-- Counterexample to C6 as stated: an address shared by the block and
data lists survives into the chunk sequence twice, so the "no duplicate
addresses" invariant fails on such inputs. -/
theorem parseFile_collections_c6_counterexample :
    ¬ (((parseFile [] [16] [16]).chunks.map Chunk.addr).Nodup) := by decide

/-- Witness for C6's amended theorem at concrete disjoint inputs. -/
theorem parseFile_collections_c6_witness :
    ([16] : List Nat).Pairwise (· < ·) ∧
    ((parseFile [] [16] [32]).chunks.map Chunk.addr).Nodup :=
  ⟨by decide, (parseFile_collections_c6 [] [16] [32]).2.2.2 (by decide) (by decide) (by decide)⟩

/-- Claim C7 (amended): an instruction whose operation has no lifting
rule makes instruction lifting fail with an error naming the offending
mnemonic (the instruction's address is not part of the error: the
decoded-instruction record `parseInst` receives carries no address at
all), and the failing function is not added as a partial/corrupt
Function to the output set: the per-function lift of any function
containing it fails with that error and produces no Function; a run
whose requested function starts with it emits an empty output set and
the error; and every member of any output set is a completely lifted
function. -/
theorem parseInst_unsupported_c7 (inst : Inst) (h : unsupportedOp inst.op = true) :
    parseInst inst =
      Except.error ("support for opcode " ++ opName inst.op ++ " not yet implemented") ∧
    (∀ addr : Nat, ∀ pre post : List Inst, (∀ i ∈ pre, unsupportedOp i.op = false) →
      decodeFunc addr (pre ++ inst :: post) =
        Except.error ("support for opcode " ++ opName inst.op ++ " not yet implemented")) ∧
    (∀ addr : Nat, ∀ post : List Inst, ∀ fns : List (Nat × List Inst),
      mainLoop ((addr, inst :: post) :: fns) =
        ([], some ("support for opcode " ++ opName inst.op ++ " not yet implemented"))) ∧
    (∀ fns : List (Nat × List Inst), ∀ f ∈ (mainLoop fns).1,
      ∃ fn ∈ fns, decodeFunc fn.1 fn.2 = Except.ok f) := by
  refine ⟨parseInst_unsupported_err inst h, ?_, ?_, mainLoop_sound⟩
  · intro addr pre post hpre
    simp [decodeFunc, liftInsts_unsupported inst h post pre hpre, Except.map]
  · intro addr post fns
    have hli : liftInsts (inst :: post) =
        Except.error ("support for opcode " ++ opName inst.op ++ " not yet implemented") := by
      have hl := liftInsts_unsupported inst h post [] (by intro i hi; simp at hi)
      simpa using hl
    simp [mainLoop, decodeFunc, hli, Except.map]

/-- Counterexample to C7 as stated: for the unsupported opcode FSQRT the
error is exactly the string below, which names the mnemonic but contains
no digit at all — so it cannot report the instruction's (numeric)
address. -/
theorem parseInst_unsupported_c7_counterexample :
    parseInst (Inst.mk Op.FSQRT []) =
      Except.error "support for opcode FSQRT not yet implemented" ∧
    ("support for opcode FSQRT not yet implemented".data.all
      (fun c => !c.isDigit)) = true :=
  ⟨rfl, by decide⟩

/-- Witness for C7's amended theorem at the concrete opcode FSQRT: the
error names the mnemonic, and the run that requests the function at
0x1000 whose entry instruction is the FSQRT emits no Function at all. -/
theorem parseInst_unsupported_c7_witness :
    unsupportedOp Op.FSQRT = true ∧
    parseInst (Inst.mk Op.FSQRT [Arg.noArg]) =
      Except.error ("support for opcode " ++ opName Op.FSQRT ++ " not yet implemented") ∧
    mainLoop [(4096, [Inst.mk Op.FSQRT [Arg.noArg]])] =
      ([], some ("support for opcode " ++ opName Op.FSQRT ++ " not yet implemented")) :=
  ⟨rfl, (parseInst_unsupported_c7 (Inst.mk Op.FSQRT [Arg.noArg]) rfl).1,
    (parseInst_unsupported_c7 (Inst.mk Op.FSQRT [Arg.noArg]) rfl).2.2.1 4096 [] []⟩

/-- Claim C8: lifting FILD resolves the source operand, converts it to
the FPU's extended-precision type (`sitofp ... to x86_fp80`), pushes
exactly that converted value via the register-stack push primitive (for
every pointer in [0,7] the new top slot holds the converted value after
the push completes at the join block), and returns without error. -/
theorem liftInstFILD_c8 :
    (∀ inst : LInst, (liftInstFILD inst).2 = Except.ok () ∧
      (liftInstFILD inst).1 = LLVMValue.siToFP (useArg inst 0) LLVMType.x86fp80) ∧
    (∀ p : Fin 8,
      (fpushFinal (liftInstFILD (LInst.mk [0])).1 p.val
          (fun _ => LLVMValue.operandVal 99)).map
          (fun r => (r.1, r.2.1, r.2.2.1 (pushSlot p 0), r.2.2.2))
        = some (13, fpushNewSt p.val,
            LLVMValue.siToFP (LLVMValue.operandVal 0) LLVMType.x86fp80,
            [pushSlot p 0])) :=
  ⟨fun _ => ⟨rfl, rfl⟩, by decide⟩

/-- Claim C9: integer stack PUSH and POP instructions are elided as an
explicit no-op by the baseline lifter: `parseInst` returns no statement
and no error for them, rather than the unsupported-opcode error. -/
theorem parseInst_pushpop_c9 : ∀ args : List Arg,
    parseInst (Inst.mk Op.PUSH args) = Except.ok none ∧
    parseInst (Inst.mk Op.POP args) = Except.ok none :=
  fun _ => ⟨rfl, rfl⟩

/-- Claim C10: the single-function selection is effective only for
nonzero addresses: with `-func` equal to 0 (its default, i.e. also when
the option is omitted) the full known-function list is lifted, so a
function at address 0 can never be individually selected; any nonzero
address selects exactly that one function. -/
theorem main_funcaddr_zero_c10 (l : List Nat) :
    mainFuncAddrs 0 l = l ∧ ∀ a : Nat, a ≠ 0 → mainFuncAddrs a l = [a] := by
  constructor
  · simp [mainFuncAddrs]
  · intro a ha
    simp [mainFuncAddrs, ha]

/-- Witness for C10 at concrete inputs. -/
theorem main_funcaddr_zero_c10_witness :
    mainFuncAddrs 0 [4096, 8192] = [4096, 8192] ∧
    ((5 : Nat) ≠ 0 ∧ mainFuncAddrs 5 [4096, 8192] = [5]) :=
  ⟨(main_funcaddr_zero_c10 [4096, 8192]).1,
    by decide, (main_funcaddr_zero_c10 [4096, 8192]).2 5 (by decide)⟩
